import Mathlib

/-!
Verification of the RSS-to-Telegram summarizer of app.py.

The development embeds the script's control flow: the seen-link database
round trip (get_seen_links / update_seen_links), the session-state thread
guard, the per-cycle pipeline over fetched feeds (run_pipeline) and the
background retry loop (background_task). External collaborators — HTTP
fetches, the summarization model, the Telegram endpoint, the Hub — enter
as oracle parameters, mirroring the try/except boundaries of the script.
-/

namespace RagBot

/-- Whitespace characters removed by line.strip() from the ends of a
seen-link line: Python str.strip() with no argument drops every character
whose str.isspace() holds — the ASCII whitespace and separators, NEL,
no-break space, and the Unicode space and line/paragraph separators. -/
def isSpaceChar (c : Char) : Bool :=
  c == ' ' || c == '\t' || c == '\n' || c == '\r' || c == '\x0b' || c == '\x0c' ||
  c == '\x1c' || c == '\x1d' || c == '\x1e' || c == '\x1f' ||
  c == '\x85' || c == '\xa0' || c == '\u1680' ||
  (0x2000 ≤ c.toNat && c.toNat ≤ 0x200a) ||
  c == '\u2028' || c == '\u2029' || c == '\u202f' || c == '\u205f' || c == '\u3000'

/-- line.strip(): drop whitespace from both ends of a line. -/
def stripChars (cs : List Char) : List Char :=
  ((cs.dropWhile isSpaceChar).reverse.dropWhile isSpaceChar).reverse

/-- Iterating a text file line by line, as get_seen_links does: segments
separated by the newline character; an unterminated final segment is a
line, an empty end of file is not. `acc` holds the current line reversed. -/
def splitLinesAux : List Char → List Char → List (List Char)
  | [], acc => if acc = [] then [] else [acc.reverse]
  | c :: cs, acc =>
    if c = '\n' then acc.reverse :: splitLinesAux cs []
    else splitLinesAux cs (c :: acc)

/-- The lines of a file body. -/
def splitLines (cs : List Char) : List (List Char) :=
  splitLinesAux cs []

/-- The universal-newlines translation of text-mode open(path, 'r'):
a carriage return followed by a newline, or a lone carriage return,
reads as one newline. -/
def universalNewlines : List Char → List Char
  | [] => []
  | [c] => if c = '\r' then ['\n'] else [c]
  | c :: d :: cs =>
    if c = '\r' then
      if d = '\n' then '\n' :: universalNewlines cs
      else '\n' :: universalNewlines (d :: cs)
    else c :: universalNewlines (d :: cs)

/-- get_seen_links of app.py, the download modelled as an Except value: a
fetched file body is read in text mode (universal newlines) line by line,
each line stripped, the results collected into a set; every failure
(missing remote file, network, auth) lands in the error branch and yields
the empty set — "start fresh". -/
def get_seen_links (fetch : Except String (List Char)) : Finset String :=
  match fetch with
  | Except.error _ => ∅
  | Except.ok content =>
    ((splitLines (universalNewlines content)).map
      (fun l => String.mk (stripChars l))).toFinset

/-- update_seen_links of app.py: the file body uploaded to the Hub — the
links in the set's iteration order, one per line, each line terminated by
a newline; the upload replaces the previous remote content wholesale. -/
def update_seen_links (links : List String) : List Char :=
  (links.map (fun l => l.toList ++ ['\n'])).flatten

/-- Streamlit runs the script once per session event, and st.session_state
is kept per user session, so the bot_thread key is looked up in the running
session's own state. The process state pairs the list of session ids whose
state already holds the key with the number of background threads started;
one script run for session sid starts a thread exactly when the key is
absent from that session's state, then stores it there. -/
def scriptRun (st : List Nat × Nat) (sid : Nat) : List Nat × Nat :=
  if sid ∈ st.1 then st else ⟨sid :: st.1, st.2 + 1⟩

/-- Background threads started by a sequence of script runs, each run
tagged with the session it serves, in one fresh process. -/
def threadsStarted (runs : List Nat) : Nat :=
  (runs.foldl scriptRun ⟨[], 0⟩).2

/-- An RSS entry as run_pipeline consumes it from feedparser: the link is
the identifier checked against the seen set, the title goes into the
message. -/
structure Entry where
  link : String
  title : String
deriving DecidableEq, Repr

/-- A fetched feed as run_pipeline sees it: feed.feed.title and the entry
list in the order feedparser.parse returns it. -/
structure Feed where
  title : String
  entries : List Entry
deriving DecidableEq, Repr

/-- The message_to_send assembled in run_pipeline, kept as its four
fields: source feed title, entry title, summary, link. -/
structure Message where
  source : String
  title : String
  summary : String
  link : String
deriving DecidableEq, Repr

/-- One call of send_telegram_message recorded with its delivery outcome;
the function swallows every error, so the outcome never reaches the
caller's control flow. -/
structure Attempt where
  msg : Message
  delivered : Bool
deriving DecidableEq, Repr

/-- summarize_text of app.py: empty text yields the fixed fallback
string, otherwise the output of the summarization model (an oracle). -/
def summarize_text (model : String → String) (text : String) : String :=
  if text = "" then "Could not generate summary (no text)." else model text

/-- The message_to_send f-string of run_pipeline for entry e whose
scraped text is `text`. -/
def mkMessage (model : String → String) (feedTitle : String) (e : Entry)
    (text : String) : Message :=
  ⟨feedTitle, e.title, summarize_text model text, e.link⟩

/-- The Boolean test `article_link not in seen_articles`. -/
def isUnseen (seen : Finset String) (e : Entry) : Bool :=
  ! decide (e.link ∈ seen)

/-- What one feed's inner entry loop produces: the updated seen set, the
delivery attempts made while scanning this feed, and this feed's
contribution to new_links_added. -/
structure FeedScan where
  seen : Finset String
  attempts : List Attempt
  added : Bool
deriving DecidableEq

/-- The inner entry loop of run_pipeline for one feed, applied to the
already-reversed entry list: links already seen are skipped; at the first
unseen link the article is scraped, and when non-empty text comes back it
is summarized, sent and the link added, then the loop breaks; when the
text is absent or empty the loop breaks without adding. `scrape` models
scrape_article_text (None and errors collapse to none) and `sendOk` the
delivery outcome of send_telegram_message. -/
def scanFeed (scrape : String → Option String) (model : String → String)
    (sendOk : Message → Bool) (feedTitle : String) :
    Finset String → List Entry → FeedScan
  | seen, [] => ⟨seen, [], false⟩
  | seen, e :: rest =>
    if e.link ∈ seen then
      scanFeed scrape model sendOk feedTitle seen rest
    else
      match scrape e.link with
      | some text =>
        if text = "" then ⟨seen, [], false⟩
        else
          ⟨insert e.link seen,
            [⟨mkMessage model feedTitle e text,
              sendOk (mkMessage model feedTitle e text)⟩],
            true⟩
      | none => ⟨seen, [], false⟩

/-- The outcome of the outer feed loop of run_pipeline: final seen set,
per-feed delivery attempts in configured feed order, and the
new_links_added flag. -/
structure FeedsResult where
  seen : Finset String
  attempts : List (List Attempt)
  added : Bool
deriving DecidableEq

/-- The outer feed loop of run_pipeline from a given seen set and
new_links_added flag: feeds in configured order, each entry list reversed
before scanning, state threaded through. -/
def runFeeds (scrape : String → Option String) (model : String → String)
    (sendOk : Message → Bool) :
    Finset String → Bool → List Feed → FeedsResult
  | seen, added, [] => ⟨seen, [], added⟩
  | seen, added, f :: fs =>
    let r := scanFeed scrape model sendOk f.title seen f.entries.reverse
    let rest := runFeeds scrape model sendOk r.seen (added || r.added) fs
    ⟨rest.seen, r.attempts :: rest.attempts, rest.added⟩

/-- The outcome of one run_pipeline cycle: final seen set, per-feed
delivery attempts, the new_links_added flag, and whether
update_seen_links was invoked at the end (exactly when the flag is
set). -/
structure CycleResult where
  seen : Finset String
  attempts : List (List Attempt)
  added : Bool
  saved : Bool
deriving DecidableEq

/-- run_pipeline of app.py, with the already-fetched feed contents and
the collaborator oracles as inputs and the loaded seen set as the
starting state: every feed is scanned through scanFeed on its reversed
entry list, and update_seen_links runs at the end exactly when
new_links_added is true. -/
def run_pipeline (scrape : String → Option String) (model : String → String)
    (sendOk : Message → Bool) (feeds : List Feed) (seen0 : Finset String) :
    CycleResult :=
  let r := runFeeds scrape model sendOk seen0 false feeds
  ⟨r.seen, r.attempts, r.added, r.added⟩

/-- Observable events of the background loop. -/
inductive LoopEvent where
  | cycleStart : Nat → LoopEvent
  | cycleError : Nat → String → LoopEvent
  | wait : Nat → LoopEvent
deriving DecidableEq, Repr

/-- One pass of the while-True body of background_task for cycle k: the
cycle runs (run_pipeline either returns or raises, oracle `outcome`); on
success the loop waits 1800 seconds, a raised exception is caught, logged
and followed by the 60 second cooldown. -/
def loopIter (outcome : Nat → Except String Unit) (k : Nat) : List LoopEvent :=
  match outcome k with
  | Except.ok _ => [LoopEvent.cycleStart k, LoopEvent.wait 1800]
  | Except.error m =>
    [LoopEvent.cycleStart k, LoopEvent.cycleError k m, LoopEvent.wait 60]

/-- background_task unrolled for `fuel` iterations from cycle k: the body
never leaves the while-True loop, whatever each cycle's outcome. -/
def loopTrace (outcome : Nat → Except String Unit) : Nat → Nat → List LoopEvent
  | _, 0 => []
  | k, n + 1 => loopIter outcome k ++ loopTrace outcome (k + 1) n

/-! Helper lemmas about the store serialization. -/

lemma splitLinesAux_newline (l : List Char) (h : '\n' ∉ l) :
    ∀ acc rest, splitLinesAux (l ++ '\n' :: rest) acc =
      (acc.reverse ++ l) :: splitLinesAux rest [] := by
  induction l with
  | nil =>
    intro acc rest
    simp [splitLinesAux]
  | cons c cs ih =>
    intro acc rest
    have hc : ¬ c = '\n' := fun h2 => h (h2 ▸ List.mem_cons_self c cs)
    have hcs : '\n' ∉ cs := fun hm => h (List.mem_cons_of_mem _ hm)
    simp only [List.cons_append, splitLinesAux, if_neg hc, List.append_eq]
    rw [ih hcs]
    simp

lemma splitLines_update (links : List String)
    (h : ∀ l ∈ links, '\n' ∉ l.toList) :
    splitLines (update_seen_links links) = links.map String.toList := by
  induction links with
  | nil => rfl
  | cons s rest ih =>
    have hs : '\n' ∉ s.toList := h s (List.mem_cons_self s rest)
    have hrest : ∀ l ∈ rest, '\n' ∉ l.toList :=
      fun l hl => h l (List.mem_cons_of_mem _ hl)
    show splitLinesAux
        (((s.toList ++ ['\n']) :: rest.map (fun l => l.toList ++ ['\n'])).flatten) [] = _
    rw [List.flatten_cons, List.append_assoc, List.singleton_append]
    rw [splitLinesAux_newline s.toList hs [] _]
    rw [List.map_cons]
    exact congrArg₂ _ (by simp) (ih hrest)

lemma universalNewlines_no_cr (cs : List Char) (h : '\r' ∉ cs) :
    universalNewlines cs = cs := by
  induction cs with
  | nil => rfl
  | cons c rest ih =>
    have hc : ¬ (c = '\r') := fun h2 => h (h2 ▸ List.mem_cons_self c rest)
    have hrest : '\r' ∉ rest := fun hm => h (List.mem_cons_of_mem _ hm)
    cases rest with
    | nil => simp [universalNewlines, hc]
    | cons d rest2 =>
      rw [show universalNewlines (c :: d :: rest2) = c :: universalNewlines (d :: rest2) from by
        simp [universalNewlines, hc]]
      rw [ih hrest]

lemma update_no_cr (links : List String) (h : ∀ l ∈ links, '\r' ∉ l.toList) :
    '\r' ∉ update_seen_links links := by
  intro hmem
  rcases List.mem_flatten.mp hmem with ⟨seg, hseg, hc⟩
  rcases List.mem_map.mp hseg with ⟨l, hl, hlseg⟩
  rcases List.mem_append.mp (hlseg ▸ hc) with h1 | h1
  · exact h l hl h1
  · exact absurd (List.mem_singleton.mp h1) (by decide)

lemma mk_strip_toList (links : List String)
    (h : ∀ l ∈ links, stripChars l.toList = l.toList) :
    links.map (fun s => String.mk (stripChars s.toList)) = links := by
  induction links with
  | nil => rfl
  | cons s rest ih =>
    have hs : stripChars s.toList = s.toList := h s (List.mem_cons_self s rest)
    have hrest : ∀ l ∈ rest, stripChars l.toList = l.toList :=
      fun l hl => h l (List.mem_cons_of_mem _ hl)
    rw [List.map_cons, hs, ih hrest]
    rfl

/-! Helper lemmas about the per-feed entry scan. -/

lemma scanFeed_cons_seen (scrape : String → Option String) (model : String → String)
    (sendOk : Message → Bool) (ft : String) (seen : Finset String) (e : Entry)
    (rest : List Entry) (h : e.link ∈ seen) :
    scanFeed scrape model sendOk ft seen (e :: rest) =
      scanFeed scrape model sendOk ft seen rest := by
  simp [scanFeed, h]

lemma scanFeed_cons_ok (scrape : String → Option String) (model : String → String)
    (sendOk : Message → Bool) (ft : String) (seen : Finset String) (e : Entry)
    (rest : List Entry) (t : String) (h : e.link ∉ seen)
    (ht : scrape e.link = some t) (hne : t ≠ "") :
    scanFeed scrape model sendOk ft seen (e :: rest) =
      ⟨insert e.link seen,
        [⟨mkMessage model ft e t, sendOk (mkMessage model ft e t)⟩], true⟩ := by
  simp [scanFeed, h, ht, hne]

lemma scanFeed_cons_fail (scrape : String → Option String) (model : String → String)
    (sendOk : Message → Bool) (ft : String) (seen : Finset String) (e : Entry)
    (rest : List Entry) (h : e.link ∉ seen) (ht : scrape e.link = none) :
    scanFeed scrape model sendOk ft seen (e :: rest) = ⟨seen, [], false⟩ := by
  simp [scanFeed, h, ht]

lemma scanFeed_cons_empty (scrape : String → Option String) (model : String → String)
    (sendOk : Message → Bool) (ft : String) (seen : Finset String) (e : Entry)
    (rest : List Entry) (h : e.link ∉ seen) (ht : scrape e.link = some "") :
    scanFeed scrape model sendOk ft seen (e :: rest) = ⟨seen, [], false⟩ := by
  simp [scanFeed, h, ht]

lemma scanFeed_spec (scrape : String → Option String) (model : String → String)
    (sendOk : Message → Bool) (ft : String) (seen : Finset String) (l : List Entry) :
    scanFeed scrape model sendOk ft seen l = ⟨seen, [], false⟩ ∨
    ∃ e t, e.link ∉ seen ∧ scrape e.link = some t ∧ t ≠ "" ∧
      scanFeed scrape model sendOk ft seen l =
        ⟨insert e.link seen,
          [⟨mkMessage model ft e t, sendOk (mkMessage model ft e t)⟩], true⟩ := by
  induction l with
  | nil => exact Or.inl rfl
  | cons e rest ih =>
    by_cases h : e.link ∈ seen
    · rw [scanFeed_cons_seen scrape model sendOk ft seen e rest h]
      exact ih
    · cases ht : scrape e.link with
      | none => exact Or.inl (scanFeed_cons_fail scrape model sendOk ft seen e rest h ht)
      | some t =>
        by_cases hne : t = ""
        · subst hne
          exact Or.inl (scanFeed_cons_empty scrape model sendOk ft seen e rest h ht)
        · exact Or.inr ⟨e, t, h, ht, hne,
            scanFeed_cons_ok scrape model sendOk ft seen e rest t h ht hne⟩

lemma scanFeed_subset (scrape : String → Option String) (model : String → String)
    (sendOk : Message → Bool) (ft : String) (seen : Finset String) (l : List Entry) :
    seen ⊆ (scanFeed scrape model sendOk ft seen l).seen := by
  rcases scanFeed_spec scrape model sendOk ft seen l with h | ⟨e, t, _, _, _, h⟩ <;>
    simp [h, Finset.subset_insert]

lemma scanFeed_attempts_len (scrape : String → Option String) (model : String → String)
    (sendOk : Message → Bool) (ft : String) (seen : Finset String) (l : List Entry) :
    (scanFeed scrape model sendOk ft seen l).attempts.length ≤ 1 := by
  rcases scanFeed_spec scrape model sendOk ft seen l with h | ⟨e, t, _, _, _, h⟩ <;>
    rw [h] <;> simp

lemma scanFeed_mem (scrape : String → Option String) (model : String → String)
    (sendOk : Message → Bool) (ft : String) (seen : Finset String) (l : List Entry)
    (x : String) :
    x ∈ (scanFeed scrape model sendOk ft seen l).seen ↔
      x ∈ seen ∨ ∃ a ∈ (scanFeed scrape model sendOk ft seen l).attempts,
        a.msg.link = x := by
  rcases scanFeed_spec scrape model sendOk ft seen l with h | ⟨e, t, _, _, _, h⟩ <;> rw [h]
  · simp
  · simp [mkMessage, Finset.mem_insert]
    constructor
    · rintro (h1 | h1)
      · exact Or.inr h1.symm
      · exact Or.inl h1
    · rintro (h1 | h1)
      · exact Or.inr h1
      · exact Or.inl h1.symm

lemma scanFeed_added_iff (scrape : String → Option String) (model : String → String)
    (sendOk : Message → Bool) (ft : String) (seen : Finset String) (l : List Entry) :
    ((scanFeed scrape model sendOk ft seen l).added = true ↔
      (scanFeed scrape model sendOk ft seen l).seen ≠ seen) := by
  rcases scanFeed_spec scrape model sendOk ft seen l with h | ⟨e, t, he, _, _, h⟩ <;> rw [h]
  · simp
  · simp only [true_iff, ne_eq]
    intro heq
    exact he (heq ▸ Finset.mem_insert_self e.link seen)

lemma scanFeed_attempt_links (scrape : String → Option String) (model : String → String)
    (sendOk : Message → Bool) (ft : String) (seen : Finset String) (l : List Entry) :
    ∀ a ∈ (scanFeed scrape model sendOk ft seen l).attempts,
      a.msg.link ∉ seen ∧ a.msg.link ∈ (scanFeed scrape model sendOk ft seen l).seen := by
  rcases scanFeed_spec scrape model sendOk ft seen l with h | ⟨e, t, he, _, _, h⟩ <;> rw [h]
  · intro a ha
    exact absurd ha (List.not_mem_nil a)
  · intro a ha
    rw [List.mem_singleton] at ha
    subst ha
    exact ⟨he, Finset.mem_insert_self e.link seen⟩

lemma scanFeed_sendOk (scrape : String → Option String) (model : String → String)
    (s1 s2 : Message → Bool) (ft : String) (seen : Finset String) (l : List Entry) :
    (scanFeed scrape model s1 ft seen l).seen = (scanFeed scrape model s2 ft seen l).seen ∧
    (scanFeed scrape model s1 ft seen l).added = (scanFeed scrape model s2 ft seen l).added := by
  induction l with
  | nil => exact ⟨rfl, rfl⟩
  | cons e rest ih =>
    by_cases h : e.link ∈ seen
    · rw [scanFeed_cons_seen scrape model s1 ft seen e rest h,
        scanFeed_cons_seen scrape model s2 ft seen e rest h]
      exact ih
    · cases ht : scrape e.link with
      | none =>
        rw [scanFeed_cons_fail scrape model s1 ft seen e rest h ht,
          scanFeed_cons_fail scrape model s2 ft seen e rest h ht]
        exact ⟨rfl, rfl⟩
      | some t =>
        by_cases hne : t = ""
        · subst hne
          rw [scanFeed_cons_empty scrape model s1 ft seen e rest h ht,
            scanFeed_cons_empty scrape model s2 ft seen e rest h ht]
          exact ⟨rfl, rfl⟩
        · rw [scanFeed_cons_ok scrape model s1 ft seen e rest t h ht hne,
            scanFeed_cons_ok scrape model s2 ft seen e rest t h ht hne]
          exact ⟨rfl, rfl⟩

lemma scanFeed_all_seen (scrape : String → Option String) (model : String → String)
    (sendOk : Message → Bool) (ft : String) (seen : Finset String) (l : List Entry)
    (h : ∀ e ∈ l, e.link ∈ seen) :
    scanFeed scrape model sendOk ft seen l = ⟨seen, [], false⟩ := by
  induction l with
  | nil => rfl
  | cons e rest ih =>
    rw [scanFeed_cons_seen scrape model sendOk ft seen e rest (h e (List.mem_cons_self e rest))]
    exact ih (fun x hx => h x (List.mem_cons_of_mem _ hx))

lemma find?_append_false {α : Type} (p : α → Bool) (pre l : List α)
    (h : ∀ x ∈ pre, p x = false) : (pre ++ l).find? p = l.find? p := by
  induction pre with
  | nil => rfl
  | cons a rest ih =>
    have ha : p a = false := h a (List.mem_cons_self a rest)
    rw [List.cons_append, List.find?_cons_of_neg _ (by simp [ha])]
    exact ih (fun x hx => h x (List.mem_cons_of_mem _ hx))

lemma scanFeed_find_none (scrape : String → Option String) (model : String → String)
    (sendOk : Message → Bool) (ft : String) (seen : Finset String) (l : List Entry)
    (h : l.find? (isUnseen seen) = none) :
    scanFeed scrape model sendOk ft seen l = ⟨seen, [], false⟩ := by
  apply scanFeed_all_seen
  intro e he
  have := List.find?_eq_none.mp h e he
  simpa [isUnseen] using this

lemma scanFeed_find_ok (scrape : String → Option String) (model : String → String)
    (sendOk : Message → Bool) (ft : String) (seen : Finset String) (l : List Entry)
    (e : Entry) (t : String) (h : l.find? (isUnseen seen) = some e)
    (ht : scrape e.link = some t) (hne : t ≠ "") :
    scanFeed scrape model sendOk ft seen l =
      ⟨insert e.link seen,
        [⟨mkMessage model ft e t, sendOk (mkMessage model ft e t)⟩], true⟩ := by
  induction l with
  | nil => exact absurd h (by simp)
  | cons a rest ih =>
    by_cases ha : a.link ∈ seen
    · have hfa : isUnseen seen a = false := by simp [isUnseen, ha]
      rw [List.find?_cons_of_neg _ (by simp [hfa])] at h
      rw [scanFeed_cons_seen scrape model sendOk ft seen a rest ha]
      exact ih h
    · have hfa : isUnseen seen a = true := by simp [isUnseen, ha]
      rw [List.find?_cons_of_pos _ hfa] at h
      have hea : a = e := Option.some_injective _ h
      subst hea
      exact scanFeed_cons_ok scrape model sendOk ft seen a rest t ha ht hne

lemma scanFeed_find_fail (scrape : String → Option String) (model : String → String)
    (sendOk : Message → Bool) (ft : String) (seen : Finset String) (l : List Entry)
    (e : Entry) (h : l.find? (isUnseen seen) = some e) (ht : scrape e.link = none) :
    scanFeed scrape model sendOk ft seen l = ⟨seen, [], false⟩ := by
  induction l with
  | nil => exact absurd h (by simp)
  | cons a rest ih =>
    by_cases ha : a.link ∈ seen
    · have hfa : isUnseen seen a = false := by simp [isUnseen, ha]
      rw [List.find?_cons_of_neg _ (by simp [hfa])] at h
      rw [scanFeed_cons_seen scrape model sendOk ft seen a rest ha]
      exact ih h
    · have hfa : isUnseen seen a = true := by simp [isUnseen, ha]
      rw [List.find?_cons_of_pos _ hfa] at h
      have hea : a = e := Option.some_injective _ h
      subst hea
      exact scanFeed_cons_fail scrape model sendOk ft seen a rest ha ht

/-! Helper lemmas about the outer feed loop and the cycle. -/

lemma runFeeds_cons_seen (scrape : String → Option String) (model : String → String)
    (sendOk : Message → Bool) (seen : Finset String) (added : Bool) (f : Feed)
    (fs : List Feed) :
    (runFeeds scrape model sendOk seen added (f :: fs)).seen =
      (runFeeds scrape model sendOk
        (scanFeed scrape model sendOk f.title seen f.entries.reverse).seen
        (added || (scanFeed scrape model sendOk f.title seen f.entries.reverse).added)
        fs).seen := rfl

lemma runFeeds_cons_attempts (scrape : String → Option String) (model : String → String)
    (sendOk : Message → Bool) (seen : Finset String) (added : Bool) (f : Feed)
    (fs : List Feed) :
    (runFeeds scrape model sendOk seen added (f :: fs)).attempts =
      (scanFeed scrape model sendOk f.title seen f.entries.reverse).attempts ::
        (runFeeds scrape model sendOk
          (scanFeed scrape model sendOk f.title seen f.entries.reverse).seen
          (added || (scanFeed scrape model sendOk f.title seen f.entries.reverse).added)
          fs).attempts := rfl

lemma runFeeds_cons_added (scrape : String → Option String) (model : String → String)
    (sendOk : Message → Bool) (seen : Finset String) (added : Bool) (f : Feed)
    (fs : List Feed) :
    (runFeeds scrape model sendOk seen added (f :: fs)).added =
      (runFeeds scrape model sendOk
        (scanFeed scrape model sendOk f.title seen f.entries.reverse).seen
        (added || (scanFeed scrape model sendOk f.title seen f.entries.reverse).added)
        fs).added := rfl

lemma runFeeds_subset (scrape : String → Option String) (model : String → String)
    (sendOk : Message → Bool) (fs : List Feed) :
    ∀ (seen : Finset String) (added : Bool),
      seen ⊆ (runFeeds scrape model sendOk seen added fs).seen := by
  induction fs with
  | nil => intro seen added; exact fun x hx => hx
  | cons f fs ih =>
    intro seen added
    rw [runFeeds_cons_seen]
    exact Finset.Subset.trans
      (scanFeed_subset scrape model sendOk f.title seen f.entries.reverse) (ih _ _)

lemma runFeeds_mem (scrape : String → Option String) (model : String → String)
    (sendOk : Message → Bool) (x : String) (fs : List Feed) :
    ∀ (seen : Finset String) (added : Bool),
      (x ∈ (runFeeds scrape model sendOk seen added fs).seen ↔
        x ∈ seen ∨ ∃ as ∈ (runFeeds scrape model sendOk seen added fs).attempts,
          ∃ a ∈ as, a.msg.link = x) := by
  induction fs with
  | nil => intro seen added; simp [runFeeds]
  | cons f fs ih =>
    intro seen added
    rw [runFeeds_cons_seen, runFeeds_cons_attempts, ih _ _,
      scanFeed_mem scrape model sendOk f.title seen f.entries.reverse x]
    simp only [List.mem_cons]
    constructor
    · rintro ((h1 | ⟨a, ha, hx⟩) | ⟨as, has, a, ha, hx⟩)
      · exact Or.inl h1
      · exact Or.inr ⟨_, Or.inl rfl, a, ha, hx⟩
      · exact Or.inr ⟨as, Or.inr has, a, ha, hx⟩
    · rintro (h1 | ⟨as, has | has, a, ha, hx⟩)
      · exact Or.inl (Or.inl h1)
      · exact Or.inl (Or.inr ⟨a, has ▸ ha, hx⟩)
      · exact Or.inr ⟨as, has, a, ha, hx⟩

lemma runFeeds_added_spec (scrape : String → Option String) (model : String → String)
    (sendOk : Message → Bool) (S : Finset String) (fs : List Feed) :
    ∀ (seen : Finset String) (added : Bool), S ⊆ seen → (added = true ↔ seen ≠ S) →
      (((runFeeds scrape model sendOk seen added fs).added = true ↔
        (runFeeds scrape model sendOk seen added fs).seen ≠ S) ∧
       S ⊆ (runFeeds scrape model sendOk seen added fs).seen) := by
  induction fs with
  | nil => intro seen added h1 h2; exact ⟨h2, h1⟩
  | cons f fs ih =>
    intro seen added h1 h2
    rw [runFeeds_cons_added, runFeeds_cons_seen]
    rcases scanFeed_spec scrape model sendOk f.title seen f.entries.reverse with
      h | ⟨e, t, he, _, _, h⟩
    · rw [h]
      exact ih seen (added || false) h1 (by simpa using h2)
    · rw [h]
      refine ih (insert e.link seen) (added || true) (Finset.Subset.trans h1 (Finset.subset_insert _ _)) ?_
      simp only [Bool.or_true, true_iff, ne_eq]
      intro heq
      exact he (h1 (heq ▸ Finset.mem_insert_self e.link seen))

lemma runFeeds_all_seen (scrape : String → Option String) (model : String → String)
    (sendOk : Message → Bool) (fs : List Feed) :
    ∀ (seen : Finset String) (added : Bool),
      (∀ f ∈ fs, ∀ e ∈ f.entries, e.link ∈ seen) →
      (runFeeds scrape model sendOk seen added fs).seen = seen ∧
      (runFeeds scrape model sendOk seen added fs).added = added := by
  induction fs with
  | nil => intro seen added _; exact ⟨rfl, rfl⟩
  | cons f fs ih =>
    intro seen added h
    have hf : scanFeed scrape model sendOk f.title seen f.entries.reverse =
        ⟨seen, [], false⟩ := by
      apply scanFeed_all_seen
      intro e he
      exact h f (List.mem_cons_self f fs) e (List.mem_reverse.mp he)
    rw [runFeeds_cons_seen, runFeeds_cons_added, hf]
    have := ih seen (added || FeedScan.added ⟨seen, [], false⟩)
      (fun g hg e he => h g (List.mem_cons_of_mem _ hg) e he)
    simpa using this

lemma runFeeds_attempts_le_one (scrape : String → Option String) (model : String → String)
    (sendOk : Message → Bool) (fs : List Feed) :
    ∀ (seen : Finset String) (added : Bool),
      ∀ as ∈ (runFeeds scrape model sendOk seen added fs).attempts, as.length ≤ 1 := by
  induction fs with
  | nil => intro seen added as has; exact absurd has (List.not_mem_nil as)
  | cons f fs ih =>
    intro seen added as has
    rw [runFeeds_cons_attempts] at has
    rcases List.mem_cons.mp has with h | h
    · exact h ▸ scanFeed_attempts_len scrape model sendOk f.title seen f.entries.reverse
    · exact ih _ _ as h

lemma runFeeds_attempt_links (scrape : String → Option String) (model : String → String)
    (sendOk : Message → Bool) (fs : List Feed) :
    ∀ (seen : Finset String) (added : Bool),
      (((runFeeds scrape model sendOk seen added fs).attempts.flatten.map
          (fun a => a.msg.link)).Nodup ∧
       ∀ a ∈ (runFeeds scrape model sendOk seen added fs).attempts.flatten,
         a.msg.link ∉ seen ∧
           a.msg.link ∈ (runFeeds scrape model sendOk seen added fs).seen) := by
  induction fs with
  | nil =>
    intro seen added
    refine ⟨by simp [runFeeds], ?_⟩
    intro a ha
    simp [runFeeds] at ha
  | cons f fs ih =>
    intro seen added
    rw [runFeeds_cons_attempts, runFeeds_cons_seen]
    rcases scanFeed_spec scrape model sendOk f.title seen f.entries.reverse with
      h | ⟨e, t, he, _, _, h⟩
    · rw [h]
      simp only [List.flatten_cons, List.nil_append]
      exact ih seen _
    · rw [h]
      simp only [List.flatten_cons, List.singleton_append]
      have ihx := ih (insert e.link seen) (added || true)
      constructor
      · rw [List.map_cons]
        refine List.nodup_cons.mpr ⟨?_, ihx.1⟩
        intro hmem
        rcases List.mem_map.mp hmem with ⟨a, ha, hax⟩
        have := (ihx.2 a ha).1
        rw [hax] at this
        exact this (by simp [mkMessage])
      · intro a ha
        rcases List.mem_cons.mp ha with h1 | h1
        · subst h1
          refine ⟨by simpa [mkMessage] using he, ?_⟩
          have : e.link ∈ insert e.link seen := Finset.mem_insert_self e.link seen
          have hsub := runFeeds_subset scrape model sendOk fs (insert e.link seen) (added || true)
          simpa [mkMessage] using hsub this
        · have h2 := ihx.2 a h1
          exact ⟨fun hmem => h2.1 (Finset.mem_insert_of_mem hmem), h2.2⟩

lemma runFeeds_sendOk (scrape : String → Option String) (model : String → String)
    (s1 s2 : Message → Bool) (fs : List Feed) :
    ∀ (seen : Finset String) (added : Bool),
      (runFeeds scrape model s1 seen added fs).seen =
        (runFeeds scrape model s2 seen added fs).seen ∧
      (runFeeds scrape model s1 seen added fs).added =
        (runFeeds scrape model s2 seen added fs).added := by
  induction fs with
  | nil => intro seen added; exact ⟨rfl, rfl⟩
  | cons f fs ih =>
    intro seen added
    have hs := scanFeed_sendOk scrape model s1 s2 f.title seen f.entries.reverse
    rw [runFeeds_cons_seen, runFeeds_cons_added,
      runFeeds_cons_seen scrape model s2, runFeeds_cons_added scrape model s2,
      hs.1, hs.2]
    exact ih _ _

lemma loopTrace_cycleStart (outcome : Nat → Except String Unit) :
    ∀ (fuel start j : Nat), j < fuel →
      LoopEvent.cycleStart (start + j) ∈ loopTrace outcome start fuel := by
  intro fuel
  induction fuel with
  | zero => intro start j h; exact absurd h (Nat.not_lt_zero j)
  | succ n ih =>
    intro start j h
    cases j with
    | zero =>
      apply List.mem_append_left
      cases houtcome : outcome start <;> simp [loopIter, houtcome]
    | succ j2 =>
      apply List.mem_append_right
      have := ih (start + 1) j2 (by omega)
      have harith : start + 1 + j2 = start + (j2 + 1) := by omega
      rwa [harith] at this

/-! Previously established results about the store, the guard and the
claims they settle. -/

/-- C8: a failed fetch of the seen-link database — missing remote file,
network error, auth error — makes get_seen_links return the empty set,
never an error. -/
theorem load_failure_returns_empty (err : String) :
    get_seen_links (Except.error err) = ∅ := rfl

/-- C5 (amended): saving a set of identifiers that contain no newline and
no carriage return and are invariant under strip, then loading, returns a
set equal to the saved one, whatever iteration order the set produced. -/
theorem save_load_roundtrip (links : List String)
    (h : ∀ l ∈ links, '\n' ∉ l.toList ∧ '\r' ∉ l.toList ∧
      stripChars l.toList = l.toList) :
    get_seen_links (Except.ok (update_seen_links links)) = links.toFinset := by
  show ((splitLines (universalNewlines (update_seen_links links))).map
      (fun l => String.mk (stripChars l))).toFinset = links.toFinset
  rw [universalNewlines_no_cr _ (update_no_cr links (fun l hl => (h l hl).2.1))]
  rw [splitLines_update links (fun l hl => (h l hl).1), List.map_map]
  rw [show (fun l => String.mk (stripChars l)) ∘ String.toList
      = (fun s => String.mk (stripChars s.toList)) from rfl]
  rw [mk_strip_toList links (fun l hl => (h l hl).2.2)]

/-- C5 witness: the round trip at the concrete two-element set. -/
theorem save_load_roundtrip_witness :
    get_seen_links (Except.ok (update_seen_links ["a", "b"])) =
      (["a", "b"] : List String).toFinset :=
  save_load_roundtrip ["a", "b"] (by decide)

/-- C5 counterexample: the unrestricted round trip fails — an identifier
with a leading blank is stripped on load, so save then load does not
return the saved set. -/
theorem save_load_roundtrip_cex :
    get_seen_links (Except.ok (update_seen_links [" a"])) ≠
      ([" a"] : List String).toFinset := by
  decide

/-- C4: re-running the script inside one session starts no second thread,
but two sessions in the same process each start one, so two background
loop threads end up running in one process — the guard is per session,
not per process. -/
theorem bot_thread_guard_is_per_session :
    threadsStarted [0, 0, 0] = 1 ∧ threadsStarted [0, 1] = 2 := by
  decide

/-- C1: when one configured feed's reversed entry list splits as
a ++ u1 :: (b ++ u2 :: c) with a and b already seen and u1, u2 unseen and
extractable (so the feed holds at least two unseen entries, u1 first and
u2 next in scan order), the cycle processes exactly u1 — one extraction,
one notification, one link added; in any cycle every feed contributes at
most one attempt; and re-running the cycle on unchanged feed content
processes exactly u2, the next unseen entry in scan order. -/
theorem at_most_one_entry_per_feed_per_cycle
    (scrape : String → Option String) (model : String → String)
    (sendOk : Message → Bool) (ft : String) (entries a b c : List Entry)
    (u1 u2 : Entry) (t1 t2 : String) (seen0 : Finset String)
    (hrev : entries.reverse = a ++ u1 :: (b ++ u2 :: c))
    (ha : ∀ e ∈ a, e.link ∈ seen0) (hu1 : u1.link ∉ seen0)
    (hb : ∀ e ∈ b, e.link ∈ seen0) (hu2 : u2.link ∉ seen0)
    (hne : u2.link ≠ u1.link)
    (ht1 : scrape u1.link = some t1) (ht1e : t1 ≠ "")
    (ht2 : scrape u2.link = some t2) (ht2e : t2 ≠ "") :
    (∀ feeds seen, ∀ as ∈ (run_pipeline scrape model sendOk feeds seen).attempts,
        as.length ≤ 1) ∧
    run_pipeline scrape model sendOk [⟨ft, entries⟩] seen0 =
      ⟨insert u1.link seen0,
        [[⟨mkMessage model ft u1 t1, sendOk (mkMessage model ft u1 t1)⟩]],
        true, true⟩ ∧
    run_pipeline scrape model sendOk [⟨ft, entries⟩] (insert u1.link seen0) =
      ⟨insert u2.link (insert u1.link seen0),
        [[⟨mkMessage model ft u2 t2, sendOk (mkMessage model ft u2 t2)⟩]],
        true, true⟩ := by
  have hfa : ∀ e ∈ a, isUnseen seen0 e = false := by
    intro e he
    simp [isUnseen, ha e he]
  have hfind1 : entries.reverse.find? (isUnseen seen0) = some u1 := by
    rw [hrev, find?_append_false _ a _ hfa,
      List.find?_cons_of_pos _ (by simp [isUnseen, hu1])]
  have hscan1 : scanFeed scrape model sendOk ft seen0 entries.reverse =
      ⟨insert u1.link seen0,
        [⟨mkMessage model ft u1 t1, sendOk (mkMessage model ft u1 t1)⟩], true⟩ :=
    scanFeed_find_ok scrape model sendOk ft seen0 entries.reverse u1 t1 hfind1 ht1 ht1e
  have hpre2 : ∀ e ∈ a ++ u1 :: b, isUnseen (insert u1.link seen0) e = false := by
    intro e he
    rcases List.mem_append.mp he with h1 | h1
    · simp [isUnseen, Finset.mem_insert_of_mem (ha e h1)]
    · rcases List.mem_cons.mp h1 with h2 | h2
      · simp [isUnseen, h2]
      · simp [isUnseen, Finset.mem_insert_of_mem (hb e h2)]
  have hfind2 : entries.reverse.find? (isUnseen (insert u1.link seen0)) = some u2 := by
    have hsplit : entries.reverse = (a ++ u1 :: b) ++ u2 :: c := by
      rw [hrev]
      simp
    rw [hsplit, find?_append_false _ (a ++ u1 :: b) _ hpre2,
      List.find?_cons_of_pos _ (by simp [isUnseen, hu2, hne])]
  have hscan2 : scanFeed scrape model sendOk ft (insert u1.link seen0) entries.reverse =
      ⟨insert u2.link (insert u1.link seen0),
        [⟨mkMessage model ft u2 t2, sendOk (mkMessage model ft u2 t2)⟩], true⟩ :=
    scanFeed_find_ok scrape model sendOk ft (insert u1.link seen0) entries.reverse
      u2 t2 hfind2 ht2 ht2e
  refine ⟨fun feeds seen => runFeeds_attempts_le_one scrape model sendOk feeds seen false, ?_, ?_⟩
  · show (⟨_, _, _, _⟩ : CycleResult) = _
    rw [runFeeds_cons_seen, runFeeds_cons_attempts, runFeeds_cons_added]
    rw [show Feed.title ⟨ft, entries⟩ = ft from rfl,
      show Feed.entries ⟨ft, entries⟩ = entries from rfl, hscan1]
    rfl
  · show (⟨_, _, _, _⟩ : CycleResult) = _
    rw [runFeeds_cons_seen, runFeeds_cons_attempts, runFeeds_cons_added]
    rw [show Feed.title ⟨ft, entries⟩ = ft from rfl,
      show Feed.entries ⟨ft, entries⟩ = entries from rfl, hscan2]
    rfl

/-- C1 witness: a feed with two unseen entries, both extractable — the
first cycle delivers the one scanned first, the re-run the next. -/
theorem at_most_one_entry_per_feed_per_cycle_witness :
    (∀ feeds seen,
      ∀ as ∈ (run_pipeline (fun _ => some "x") (fun _ => "s") (fun _ => true)
        feeds seen).attempts, as.length ≤ 1) ∧
    run_pipeline (fun _ => some "x") (fun _ => "s") (fun _ => true)
        [⟨"F", [⟨"L2", "T2"⟩, ⟨"L1", "T1"⟩]⟩] ∅ =
      ⟨insert "L1" ∅,
        [[⟨mkMessage (fun _ => "s") "F" ⟨"L1", "T1"⟩ "x", (fun _ => true) (mkMessage (fun _ => "s") "F" ⟨"L1", "T1"⟩ "x")⟩]],
        true, true⟩ ∧
    run_pipeline (fun _ => some "x") (fun _ => "s") (fun _ => true)
        [⟨"F", [⟨"L2", "T2"⟩, ⟨"L1", "T1"⟩]⟩] (insert "L1" ∅) =
      ⟨insert "L2" (insert "L1" ∅),
        [[⟨mkMessage (fun _ => "s") "F" ⟨"L2", "T2"⟩ "x", (fun _ => true) (mkMessage (fun _ => "s") "F" ⟨"L2", "T2"⟩ "x")⟩]],
        true, true⟩ :=
  at_most_one_entry_per_feed_per_cycle (fun _ => some "x") (fun _ => "s")
    (fun _ => true) "F" [⟨"L2", "T2"⟩, ⟨"L1", "T1"⟩] [] [] []
    ⟨"L1", "T1"⟩ ⟨"L2", "T2"⟩ "x" "x" ∅
    (by decide) (by decide) (by decide) (by decide) (by decide) (by decide)
    rfl (by decide) rfl (by decide)

/-- C2: for a feed whose entry list comes newest-first (timestamps
strictly decreasing along the list, the chronologically oldest entry
last), all entries unseen and the oldest extractable, the orchestrator
reverses the list before scanning and so the cycle delivers exactly the
chronologically earliest entry. -/
theorem oldest_unseen_selected
    (scrape : String → Option String) (model : String → String)
    (sendOk : Message → Bool) (ft : String) (es : List Entry) (eOld : Entry)
    (ts : Entry → Nat) (tx : String) (seen0 : Finset String)
    (hsort : (es ++ [eOld]).Pairwise (fun x y => ts y < ts x))
    (hunseen : ∀ e ∈ es ++ [eOld], e.link ∉ seen0)
    (htx : scrape eOld.link = some tx) (htxe : tx ≠ "") :
    run_pipeline scrape model sendOk [⟨ft, es ++ [eOld]⟩] seen0 =
      ⟨insert eOld.link seen0,
        [[⟨mkMessage model ft eOld tx, sendOk (mkMessage model ft eOld tx)⟩]],
        true, true⟩ ∧
    ∀ e ∈ es, ts eOld < ts e := by
  have hrev : (es ++ [eOld]).reverse = eOld :: es.reverse := by simp
  have hfind : (es ++ [eOld]).reverse.find? (isUnseen seen0) = some eOld := by
    rw [hrev, List.find?_cons_of_pos _
      (by simp [isUnseen, hunseen eOld (List.mem_append_right es (List.mem_singleton_self eOld))])]
  have hscan : scanFeed scrape model sendOk ft seen0 (es ++ [eOld]).reverse =
      ⟨insert eOld.link seen0,
        [⟨mkMessage model ft eOld tx, sendOk (mkMessage model ft eOld tx)⟩], true⟩ :=
    scanFeed_find_ok scrape model sendOk ft seen0 (es ++ [eOld]).reverse eOld tx
      hfind htx htxe
  constructor
  · show (⟨_, _, _, _⟩ : CycleResult) = _
    rw [runFeeds_cons_seen, runFeeds_cons_attempts, runFeeds_cons_added]
    rw [show Feed.title ⟨ft, es ++ [eOld]⟩ = ft from rfl,
      show Feed.entries ⟨ft, es ++ [eOld]⟩ = es ++ [eOld] from rfl, hscan]
    rfl
  · intro e he
    exact (List.pairwise_append.mp hsort).2.2 e he eOld (List.mem_singleton_self eOld)

/-- C2 witness: entries old, mid, new, listed newest-first and all
unseen — the cycle selects old. -/
theorem oldest_unseen_selected_witness :
    run_pipeline (fun _ => some "x") (fun _ => "s") (fun _ => true)
        [⟨"F", [⟨"Lnew", "Tnew"⟩, ⟨"Lmid", "Tmid"⟩] ++ [⟨"Lold", "Told"⟩]⟩] ∅ =
      ⟨insert "Lold" ∅,
        [[⟨mkMessage (fun _ => "s") "F" ⟨"Lold", "Told"⟩ "x", (fun _ => true) (mkMessage (fun _ => "s") "F" ⟨"Lold", "Told"⟩ "x")⟩]],
        true, true⟩ ∧
    ∀ e ∈ [(⟨"Lnew", "Tnew"⟩ : Entry), ⟨"Lmid", "Tmid"⟩],
      (fun e => if e.link = "Lnew" then 2 else if e.link = "Lmid" then 1 else 0 : Entry → Nat) ⟨"Lold", "Told"⟩ <
        (fun e => if e.link = "Lnew" then 2 else if e.link = "Lmid" then 1 else 0 : Entry → Nat) e :=
  oldest_unseen_selected (fun _ => some "x") (fun _ => "s") (fun _ => true) "F"
    [⟨"Lnew", "Tnew"⟩, ⟨"Lmid", "Tmid"⟩] ⟨"Lold", "Told"⟩
    (fun e => if e.link = "Lnew" then 2 else if e.link = "Lmid" then 1 else 0)
    "x" ∅ (by decide) (by decide) rfl (by decide)

/-- C3: a link is in the cycle's final seen set iff it was there at the
start or a notification attempt for it was made during the cycle; and the
final seen set and the save decision are identical whatever each
delivery's outcome, so a failed send never blocks the add. -/
theorem seen_add_iff_attempt
    (scrape : String → Option String) (model : String → String)
    (sendOk sendOk2 : Message → Bool) (feeds : List Feed) (seen0 : Finset String) :
    (∀ l, l ∈ (run_pipeline scrape model sendOk feeds seen0).seen ↔
        l ∈ seen0 ∨ ∃ as ∈ (run_pipeline scrape model sendOk feeds seen0).attempts,
          ∃ a ∈ as, a.msg.link = l) ∧
    (run_pipeline scrape model sendOk feeds seen0).seen =
      (run_pipeline scrape model sendOk2 feeds seen0).seen ∧
    (run_pipeline scrape model sendOk feeds seen0).saved =
      (run_pipeline scrape model sendOk2 feeds seen0).saved := by
  refine ⟨fun l => runFeeds_mem scrape model sendOk l feeds seen0 false, ?_, ?_⟩
  · exact (runFeeds_sendOk scrape model sendOk sendOk2 feeds seen0 false).1
  · exact (runFeeds_sendOk scrape model sendOk sendOk2 feeds seen0 false).2

/-- C6: when the first unseen entry of a feed's scan order yields no
extracted text, the feed's scan changes nothing — the link is not added,
no notification is attempted, and no other entry of the feed is
processed in that cycle, even an extractable unseen one further on. -/
theorem extraction_absent_skip
    (scrape : String → Option String) (model : String → String)
    (sendOk : Message → Bool) (ft : String) (entries : List Entry) (e : Entry)
    (seen0 : Finset String)
    (hfind : entries.reverse.find? (isUnseen seen0) = some e)
    (hnone : scrape e.link = none) :
    scanFeed scrape model sendOk ft seen0 entries.reverse = ⟨seen0, [], false⟩ ∧
    run_pipeline scrape model sendOk [⟨ft, entries⟩] seen0 =
      ⟨seen0, [[]], false, false⟩ := by
  have hscan : scanFeed scrape model sendOk ft seen0 entries.reverse =
      ⟨seen0, [], false⟩ :=
    scanFeed_find_fail scrape model sendOk ft seen0 entries.reverse e hfind hnone
  refine ⟨hscan, ?_⟩
  show (⟨_, _, _, _⟩ : CycleResult) = _
  rw [runFeeds_cons_seen, runFeeds_cons_attempts, runFeeds_cons_added]
  rw [show Feed.title ⟨ft, entries⟩ = ft from rfl,
    show Feed.entries ⟨ft, entries⟩ = entries from rfl, hscan]
  rfl

/-- C6 witness: the first unseen entry fails extraction while a later
unseen entry would extract; the cycle still leaves the seen set unchanged
and sends nothing. -/
theorem extraction_absent_skip_witness :
    scanFeed (fun l => if l = "L1" then none else some "x") (fun _ => "s")
        (fun _ => true) "F" ∅ ([⟨"L2", "T2"⟩, ⟨"L1", "T1"⟩] : List Entry).reverse =
      ⟨∅, [], false⟩ ∧
    run_pipeline (fun l => if l = "L1" then none else some "x") (fun _ => "s")
        (fun _ => true) [⟨"F", [⟨"L2", "T2"⟩, ⟨"L1", "T1"⟩]⟩] ∅ =
      ⟨∅, [[]], false, false⟩ :=
  extraction_absent_skip (fun l => if l = "L1" then none else some "x")
    (fun _ => "s") (fun _ => true) "F" [⟨"L2", "T2"⟩, ⟨"L1", "T1"⟩]
    ⟨"L1", "T1"⟩ ∅ (by decide) (by decide)

/-- C7: update_seen_links runs at the end of a cycle exactly when the
seen set grew during it; a cycle whose feeds hold only already-seen links
leaves the seen set unchanged and never saves. -/
theorem save_iff_added
    (scrape : String → Option String) (model : String → String)
    (sendOk : Message → Bool) (feeds : List Feed) (seen0 : Finset String) :
    ((run_pipeline scrape model sendOk feeds seen0).saved = true ↔
      (run_pipeline scrape model sendOk feeds seen0).seen ≠ seen0) ∧
    ((∀ f ∈ feeds, ∀ e ∈ f.entries, e.link ∈ seen0) →
      (run_pipeline scrape model sendOk feeds seen0).saved = false) := by
  constructor
  · exact (runFeeds_added_spec scrape model sendOk seen0 feeds seen0 false
      (fun x hx => hx) (by simp)).1
  · intro h
    exact (runFeeds_all_seen scrape model sendOk feeds seen0 false h).2

/-- C9: background_task catches an exception escaping cycle k, logs it and
waits the 60 second cooldown instead of the 1800 second interval, and
every later cycle still starts: the loop never terminates because a cycle
raised. -/
theorem loop_survives_cycle_exception
    (outcome : Nat → Except String Unit) (k : Nat) (m : String)
    (herr : outcome k = Except.error m) :
    loopIter outcome k =
      [LoopEvent.cycleStart k, LoopEvent.cycleError k m, LoopEvent.wait 60] ∧
    (∀ j fuel, j < fuel → LoopEvent.cycleStart j ∈ loopTrace outcome 0 fuel) ∧
    LoopEvent.cycleStart (k + 1) ∈ loopTrace outcome 0 (k + 2) := by
  refine ⟨by simp [loopIter, herr], ?_, ?_⟩
  · intro j fuel hj
    have := loopTrace_cycleStart outcome fuel 0 j hj
    simpa using this
  · have := loopTrace_cycleStart outcome (k + 2) 0 (k + 1) (by omega)
    simpa using this

/-- C9 witness: a summarization failure in cycle 0 is caught, the loop
cools down 60 seconds, and cycle 1 still starts. -/
theorem loop_survives_cycle_exception_witness :
    loopIter (fun n => if n = 0 then Except.error "boom" else Except.ok ()) 0 =
      [LoopEvent.cycleStart 0, LoopEvent.cycleError 0 "boom", LoopEvent.wait 60] ∧
    (∀ j fuel, j < fuel →
      LoopEvent.cycleStart j ∈
        loopTrace (fun n => if n = 0 then Except.error "boom" else Except.ok ()) 0 fuel) ∧
    LoopEvent.cycleStart (0 + 1) ∈
      loopTrace (fun n => if n = 0 then Except.error "boom" else Except.ok ()) 0 (0 + 2) :=
  loop_survives_cycle_exception
    (fun n => if n = 0 then Except.error "boom" else Except.ok ()) 0 "boom" rfl

/-- C10: within one cycle the attempted links are pairwise distinct across
all feeds — the dedup check and the add operate on the one seen set shared
by every feed — and every attempted link was unseen at cycle start and is
in the final seen set, so a link delivered by an earlier feed is treated
as seen by every later feed of the same cycle. -/
theorem one_attempt_per_link_per_cycle
    (scrape : String → Option String) (model : String → String)
    (sendOk : Message → Bool) (feeds : List Feed) (seen0 : Finset String) :
    (((run_pipeline scrape model sendOk feeds seen0).attempts.flatten.map
        (fun a => a.msg.link)).Nodup) ∧
    ∀ a ∈ (run_pipeline scrape model sendOk feeds seen0).attempts.flatten,
      a.msg.link ∉ seen0 ∧
        a.msg.link ∈ (run_pipeline scrape model sendOk feeds seen0).seen :=
  runFeeds_attempt_links scrape model sendOk feeds seen0 false

end RagBot
